import Mathlib

/-!
Verification of the leave accrual/usage/expiration engine of the
Attendance-Manager repository.  The Python source is shallowly embedded:
calendar dates are triples of naturals, the SQLite record stores become
explicit lists, monetary leave amounts become exact rationals (every value
the program manipulates is a small multiple of 0.5, on which Python float
arithmetic is exact), and the two expiration walks become structurally
recursive functions over an explicit record state.
-/

namespace AttendanceManager

/-- A calendar date, mirroring Python `datetime.date` fields. -/
structure Date where
  year : Nat
  month : Nat
  day : Nat
deriving DecidableEq, Repr

/-- Python `date` ordering is lexicographic on (year, month, day). -/
def dateLe (a b : Date) : Prop :=
  a.year < b.year ∨ (a.year = b.year ∧
    (a.month < b.month ∨ (a.month = b.month ∧ a.day ≤ b.day)))

/-- Strict version of `dateLe`. -/
def dateLt (a b : Date) : Prop :=
  a.year < b.year ∨ (a.year = b.year ∧
    (a.month < b.month ∨ (a.month = b.month ∧ a.day < b.day)))

instance (a b : Date) : Decidable (dateLe a b) := by
  unfold dateLe; infer_instance

instance (a b : Date) : Decidable (dateLt a b) := by
  unfold dateLt; infer_instance

/-- Gregorian leap-year test, as Python's `calendar.isleap`. -/
def isLeapYear (y : Nat) : Bool :=
  y % 4 == 0 && (y % 100 != 0 || y % 400 == 0)

/-- Number of days in a month of a given year. -/
def daysInMonth (y m : Nat) : Nat :=
  if m = 2 then (if isLeapYear y then 29 else 28)
  else if m = 4 ∨ m = 6 ∨ m = 9 ∨ m = 11 then 30
  else 31

/-- Validity of a (year, month, day) triple, as accepted by `datetime`. -/
def validDate (d : Date) : Prop :=
  1 ≤ d.year ∧ 1 ≤ d.month ∧ d.month ≤ 12 ∧ 1 ≤ d.day ∧ d.day ≤ daysInMonth d.year d.month

instance (d : Date) : Decidable (validDate d) := by
  unfold validDate; infer_instance

/-- Days of the year preceding month `m` (rata-die helper). -/
def daysBeforeMonth (y m : Nat) : Nat :=
  (match m with
   | 1 => 0 | 2 => 31 | 3 => 59 | 4 => 90 | 5 => 120 | 6 => 151 | 7 => 181
   | 8 => 212 | 9 => 243 | 10 => 273 | 11 => 304 | _ => 334)
  + (if 3 ≤ m ∧ isLeapYear y then 1 else 0)

/-- Rata-die ordinal of a date (day 1 = 0001-01-01), matching
`datetime.date.toordinal`. -/
def toOrdinal (d : Date) : Int :=
  let p : Int := (d.year : Int) - 1
  365 * p + p / 4 - p / 100 + p / 400 + daysBeforeMonth d.year d.month + d.day

/-- Python date subtraction `(a - b).days`. -/
def diffDays (a b : Date) : Int :=
  toOrdinal a - toOrdinal b

/-- The day before `d`, i.e. Python `d - timedelta(days=1)`. -/
def prevDay (d : Date) : Date :=
  if 1 < d.day then ⟨d.year, d.month, d.day - 1⟩
  else if 1 < d.month then ⟨d.year, d.month - 1, daysInMonth d.year (d.month - 1)⟩
  else ⟨d.year - 1, 12, 31⟩

/-- The source's anniversary construction
`datetime(hire.year + offset, hire.month, hire.day)` with the
`except ValueError` fallback to `hire.day - 1` (Feb 29 → Feb 28). -/
def mkAnnivDate (y m dd : Nat) : Date :=
  if validDate ⟨y, m, dd⟩ then ⟨y, m, dd⟩ else ⟨y, m, dd - 1⟩

/-- Anniversary number `o` of a hire date. -/
def anniversary (hire : Date) (o : Nat) : Date :=
  mkAnnivDate (hire.year + o) hire.month hire.day

/-! ## LeaveCalculator -/

/-- Source `LeaveCalculator.is_one_year_or_more`: membership in the hardcoded
long-tenure name list short-circuits the tenure test; otherwise tenure is
`(target_date - hire_date).days >= 365`.  The name-list membership test is
abstracted into the boolean `inList`. -/
def is_one_year_or_more (inList : Bool) (hire target : Date) : Bool :=
  inList || decide (365 ≤ diffDays target hire)

/-- The `months_passed` computation shared by `calculate_monthly_leave`
and the inline regime-A code in `refresh_data`:
`(t.year - h.year) * 12 + (t.month - h.month)`, minus one when
`t.day < h.day`. -/
def monthsPassed (hire target : Date) : Int :=
  ((target.year : Int) - hire.year) * 12 + ((target.month : Int) - hire.month)
    - (if target.day < hire.day then 1 else 0)

/-- Source `LeaveCalculator.calculate_monthly_leave`: 0 if tenure is at least
365 days, else `min(months_passed, 11)` (note: the source has no lower
clamp). -/
def calculate_monthly_leave (hire target : Date) : Int :=
  if 365 ≤ diffDays target hire then 0
  else min (monthsPassed hire target) 11

/-- The `years_passed` computation of `calculate_annual_leave`. -/
def yearsPassed (hire target : Date) : Int :=
  ((target.year : Int) - hire.year)
    - (if target.month < hire.month ∨ (target.month = hire.month ∧ target.day < hire.day)
       then 1 else 0)

/-- Source `LeaveCalculator.calculate_annual_leave`: 0 before the first full
year, else 15, plus `(years_passed - 3) // 2 + 1` once `years_passed >= 3`,
capped at 25.  Lean's `Int` division is floor division for the positive
divisor 2, exactly as Python's `//`. -/
def calculate_annual_leave (hire target : Date) : Int :=
  let y := yearsPassed hire target
  if y < 1 then 0
  else min (15 + (if 3 ≤ y then (y - 3) / 2 + 1 else 0)) 25

/-! ## UsageAggregator: the attendance-record summation loops of
`refresh_data` (monthly loop and year loop share this exact shape). -/

/-- The `leave_type` values relevant to the aggregation loops
(연차 = annual, 반차 = half, 휴가 = vacation; anything else = other). -/
inductive LType where
  | annual | half | vacation | other
deriving DecidableEq, Repr

/-- The `remarks` values relevant to the aggregation loops
(반차_출근, 반차_퇴근, or anything else). -/
inductive RMark where
  | halfIn | halfOut | plain
deriving DecidableEq, Repr

/-- One row of `attendance_records` as consumed by the loops. -/
structure AttRec where
  workDate : Date
  ltype : LType
  remark : RMark
deriving DecidableEq, Repr

/-- The loop predicate
`is_half_day = (leave_type == '반차' or remarks == '반차_출근' or remarks == '반차_퇴근')`. -/
def isHalfDay (r : AttRec) : Bool :=
  decide (r.ltype = .half ∨ r.remark = .halfIn ∨ r.remark = .halfOut)

/-- Whether the first loop branch fires:
`leave_type == '연차' or leave_type == '휴가'`. -/
def isFullDay (r : AttRec) : Bool :=
  decide (r.ltype = .annual ∨ r.ltype = .vacation)

/-- One iteration of the aggregation loop: full-day rows add 1.0
unconditionally, half-day rows add 0.5 only when their date is not yet in
the per-call seen-dates set (반차_날짜_set). -/
def aggStep (st : ℚ × List Date) (r : AttRec) : ℚ × List Date :=
  if isFullDay r then (st.1 + 1, st.2)
  else if isHalfDay r then
    (if r.workDate ∈ st.2 then st else (st.1 + 1/2, r.workDate :: st.2))
  else st

/-- The whole aggregation loop over a fetched record list, starting from
amount 0 and an empty seen-dates set. -/
def aggregateRecords (rs : List AttRec) : ℚ :=
  (rs.foldl aggStep (0, [])).1

/-- Records inside a half-open window `[s, e)`, as selected by the
`work_date >= ? AND work_date < ?` queries. -/
def windowRecords (rs : List AttRec) (s e : Date) : List AttRec :=
  rs.filter (fun r => decide (dateLe s r.workDate ∧ dateLt r.workDate e))

/-- An aggregation call over a window. -/
def aggregateWindow (rs : List AttRec) (s e : Date) : ℚ :=
  aggregateRecords (windowRecords rs s e)

/-- Number of full-day rows of a list. -/
def fullCount (rs : List AttRec) : Nat :=
  (rs.filter (fun r => isFullDay r)).length

/-- Dates of the rows that the loop treats as half-day rows. -/
def halfDates (rs : List AttRec) : List Date :=
  (rs.filter (fun r => !isFullDay r && isHalfDay r)).map (·.workDate)

/-- The distinct half-day dates of a list. -/
def halfDateSet (rs : List AttRec) : Finset Date :=
  (halfDates rs).toFinset

/-! ## ExpirationEngine: the `leave_expirations` store and the walks. -/

/-- The `leave_type` column of `leave_expirations`
(연차 = annual, 월차 = monthly). -/
inductive EKind where
  | annual | monthly
deriving DecidableEq, Repr

/-- One row of the `leave_expirations` table, for a fixed employee. -/
structure ExpRec where
  kind : EKind
  exDate : Date
  amount : ℚ
deriving DecidableEq, Repr

/-- The duplicate-prevention lookup
`SELECT id FROM leave_expirations WHERE leave_type = ? AND expiration_date = ?`. -/
def hasRec (recs : List ExpRec) (k : EKind) (d : Date) : Bool :=
  recs.any (fun r => decide (r.kind = k ∧ r.exDate = d))

/-- Number of records for one (kind, expiration-date) key. -/
def countRec (recs : List ExpRec) (k : EKind) (d : Date) : Nat :=
  (recs.filter (fun r => decide (r.kind = k ∧ r.exDate = d))).length

/-- The deletion boundary of period `o` in
`check_annual_leave_expiration`:
`datetime(anniversary_date.year + 1, hire_month, hire_day)` with the
day−1 fallback. -/
def nextAnnivOf (hire : Date) (o : Nat) : Date :=
  mkAnnivDate ((anniversary hire o).year + 1) hire.month hire.day

/-- The expired amount that `check_annual_leave_expiration` computes for
period `o`: the (absolute) annual entitlement at the period's starting
anniversary minus the leave used in `[anniversary, next_anniversary)`.
`used` abstracts the `SUM(leave_amount)` query over `leave_records`. -/
def checkExpiredAmount (hire : Date) (used : Date → Date → ℚ) (o : Nat) : ℚ :=
  (calculate_annual_leave hire (anniversary hire o) : ℚ)
    - used (anniversary hire o) (nextAnnivOf hire o)

/-- One boundary of `LeaveCalculator.check_annual_leave_expiration`
(the body of its `for year_offset in range(1, 50)` loop, for a boundary
whose expiration date has been reached). -/
def checkAnnualStep (hire : Date) (used : Date → Date → ℚ) (o : Nat)
    (recs : List ExpRec) : List ExpRec :=
  if hasRec recs .annual (nextAnnivOf hire o) then recs
  else if 0 < checkExpiredAmount hire used o then
    recs ++ [⟨.annual, nextAnnivOf hire o, checkExpiredAmount hire used o⟩]
  else recs

/-- The loop of `check_annual_leave_expiration`: walk offsets 1, 2, …
while `target_date >= next_anniversary_date`, break at the first boundary
not yet reached. -/
def checkAnnualWalkAux (hire target : Date) (used : Date → Date → ℚ) :
    Nat → Nat → List ExpRec → List ExpRec
  | 0, _, recs => recs
  | fuel + 1, o, recs =>
    if dateLe (nextAnnivOf hire o) target then
      checkAnnualWalkAux hire target used fuel (o + 1) (checkAnnualStep hire used o recs)
    else recs

/-- Source `LeaveCalculator.check_annual_leave_expiration` for one employee:
no-op for an employee not yet treated as one-year-or-more, else the
49-iteration boundary walk. -/
def checkAnnualWalk (inList : Bool) (hire target : Date)
    (used : Date → Date → ℚ) (recs : List ExpRec) : List ExpRec :=
  if is_one_year_or_more inList hire target then
    checkAnnualWalkAux hire target used 49 1 recs
  else recs

/-- Source `LeaveCalculator.check_monthly_leave_expiration`: a single boundary at
the first anniversary, processed only for an employee still under the
one-year threshold, guarded by the same duplicate check.  `usedBefore d`
abstracts `SUM(leave_amount) … WHERE leave_type = '월차' AND leave_date < d`. -/
def checkMonthlyWalk (inList : Bool) (hire target : Date)
    (usedBefore : Date → ℚ) (recs : List ExpRec) : List ExpRec :=
  if is_one_year_or_more inList hire target then recs
  else
    let oneYear := mkAnnivDate (hire.year + 1) hire.month hire.day
    if dateLe oneYear target then
      if hasRec recs .monthly oneYear then recs
      else
        let maxMonthly : ℚ := min 11 (calculate_monthly_leave hire (prevDay oneYear))
        let expired := maxMonthly - usedBefore oneYear
        if 0 < expired then recs ++ [⟨.monthly, oneYear, expired⟩] else recs
    else recs

/-- The period start used by the `refresh_data` expiration loop: the
hire date for the first period, else the previous anniversary (built
there without the day−1 fallback). -/
def refreshPeriodStart (hire : Date) (o : Nat) : Date :=
  if o = 1 then hire else ⟨hire.year + (o - 1), hire.month, hire.day⟩

/-- The generated amount of period `o` in the `refresh_data` expiration
loop: entitlement at the day before the boundary, minus — for periods
after the first — the entitlement at the day before the period start. -/
def refreshGenerated (hire : Date) (o : Nat) : Int :=
  calculate_annual_leave hire (prevDay (anniversary hire o))
    - (if 1 < o then calculate_annual_leave hire (prevDay (refreshPeriodStart hire o)) else 0)

/-- The expired amount of period `o` in the `refresh_data` expiration
loop: `max(0, leave_generated_period - total_used_period)`. -/
def refreshExpiredAmount (hire : Date) (used : Date → Date → ℚ) (o : Nat) : ℚ :=
  max 0 ((refreshGenerated hire o : ℚ)
    - used (refreshPeriodStart hire o) (anniversary hire o))

/-- Modelled from the spec: `generated = entitlement_for_period(hire_date,
period_end) − entitlement_for_period(hire_date, period_start)` (delta,
not absolute, for periods after the first) and
`expired_amount = max(0, generated − used)`, where `entitlement_for_period`
is the source's `calculate_annual_leave` evaluated on the day before the
bounding anniversary and `used` is the leave consumed within the period. -/
def specExpiredAmount (hire : Date) (used : Date → Date → ℚ) (o : Nat) : ℚ :=
  let entitlementEnd : Int := calculate_annual_leave hire (prevDay (anniversary hire o))
  let entitlementStart : Int :=
    if 1 < o then calculate_annual_leave hire (prevDay (refreshPeriodStart hire o)) else 0
  max 0 (((entitlementEnd - entitlementStart : Int) : ℚ)
    - used (refreshPeriodStart hire o) (anniversary hire o))

/-- One boundary of the expiration walk inlined in `refresh_data`
(its `for year_offset in range(1, max_years + 1)` loop). -/
def refreshStep (hire : Date) (used : Date → Date → ℚ) (o : Nat)
    (recs : List ExpRec) : List ExpRec :=
  if hasRec recs .annual (anniversary hire o) then recs
  else if 0 < refreshExpiredAmount hire used o then
    recs ++ [⟨.annual, anniversary hire o, refreshExpiredAmount hire used o⟩]
  else recs

/-- The `refresh_data` expiration loop: walk offsets 1..50, breaking at
the first anniversary after `current`. -/
def refreshWalkAux (hire current : Date) (used : Date → Date → ℚ) :
    Nat → Nat → List ExpRec → List ExpRec
  | 0, _, recs => recs
  | fuel + 1, o, recs =>
    let nextAnniv := anniversary hire o
    if dateLt current nextAnniv then recs
    else refreshWalkAux hire current used fuel (o + 1) (refreshStep hire used o recs)

/-- The whole `refresh_data` expiration walk (lines 1433–1470). -/
def refreshWalk (hire current : Date) (used : Date → Date → ℚ)
    (recs : List ExpRec) : List ExpRec :=
  refreshWalkAux hire current used 50 1 recs

/-! ## BalanceProjector pieces of `refresh_data`. -/

/-- First day of month `m` of `selected_year`. -/
def monthStart (sy m : Nat) : Date := ⟨sy, m, 1⟩

/-- First day of the month after month `m` (January of the next year for
December), as computed in the manual-override loop. -/
def monthEnd (sy m : Nat) : Date :=
  if m = 12 then ⟨sy + 1, 1, 1⟩ else ⟨sy, m + 1, 1⟩

/-- One iteration of the manual-monthly-values loop of `refresh_data`
(lines 1181–1223), for a parsed value `v` in month `m`: returns the
amount added to the year-usage total and whether the warning was printed.
When the anniversary falls inside the selected year, the month containing
the anniversary is skipped with a warning, months starting after the
anniversary are added, and remaining months are silently skipped; when
the anniversary falls after the selected year every month is added. -/
def overrideStep (anniv : Date) (sy m : Nat) (v : ℚ) : ℚ × Bool :=
  if dateLe anniv ⟨sy, 12, 31⟩ then
    if dateLe (monthStart sy m) anniv ∧ dateLt anniv (monthEnd sy m) then (0, true)
    else if dateLt anniv (monthStart sy m) then (v, false)
    else (0, false)
  else (v, false)

/-- Total manual-override contribution to the year usage, over a list of
(month, value) rows of `leave_manual_values`. -/
def manualTotal (anniv : Date) (sy : Nat) (vals : List (Nat × ℚ)) : ℚ :=
  (vals.map (fun p => (overrideStep anniv sy p.1 p.2).1)).sum

/-- Step 2 of the published balance formula (lines 1556–1563):
`remaining = (leave_generated - used_current_year) + remaining_prev_year_final`. -/
def remainingStep2 (gen used carryFinal : ℚ) : ℚ :=
  (gen - used) + carryFinal

/-- Carry-in after expiration for a `selected_year <= 2025` query
(lines 1539–1553): `max(0.0, remaining_prev_year - total_expired)`. -/
def carryFinalLe2025 (prev expired : ℚ) : ℚ :=
  max 0 (prev - expired)

/-- Carry-in after expiration for a `selected_year >= 2026` query
(lines 1483–1537): once the selected year's anniversary has passed, the
unused part of the previous year's remainder expires and the carry is the
clamped difference; before the anniversary the stored remainder is used
unchanged. -/
def carryFinalGe2026 (prev usedBetween : ℚ) (annivPassed : Bool) : ℚ :=
  if annivPassed then max 0 (prev - max 0 (prev - usedBetween)) else prev

/-- The `selected_year <= 2025` published remaining balance. -/
def remainingLe2025 (gen used prev expired : ℚ) : ℚ :=
  remainingStep2 gen used (carryFinalLe2025 prev expired)

/-- The remaining balance that `refresh_data` computes for the viewed
year and then persists into `leave_remaining_by_year` (lines 1556–1580):
the year-usage total is the event-derived aggregate plus the
manual-override contribution. -/
def storedRemaining (gen eventUsed manualUsed carryFinal : ℚ) : ℚ :=
  remainingStep2 gen (eventUsed + manualUsed) carryFinal

/-- The fallback carry-in recomputation used when no snapshot exists
(lines 1073–1075): `(annual_prev_anniversary - used_prev_year) +
remaining_prev_prev_year_final`; it has no manual-override input at all. -/
def fallbackCarry (annualPrevAnniv usedPrevYear prevPrevFinal : ℚ) : ℚ :=
  (annualPrevAnniv - usedPrevYear) + prevPrevFinal

/-! ## The `leave_generated` selection of `refresh_data` (lines 1262–1404). -/

/-- The calculation reference date: the selected year's last day for a
past or future year, today for the current year. -/
def calcDateFor (sy : Nat) (today : Date) : Date :=
  if today.year < sy then ⟨sy, 12, 31⟩
  else if sy = today.year then today
  else ⟨sy, 12, 31⟩

/-- The selected year's anniversary of the hire date
(`datetime(selected_year, hire_month, hire_day)` with the day−1 fallback). -/
def annivInYear (hire : Date) (sy : Nat) : Date :=
  mkAnnivDate sy hire.month hire.day

/-- The `leave_generated` ("연차 발생 수") computation of `refresh_data`:
regime-A monthly accrual (clamped into [0, 11]) below the one-year
threshold, otherwise the annual entitlement evaluated at the selected
year's anniversary — gated on TODAY for queries of 2026 or later. -/
def leaveGenerated (inList : Bool) (hire : Date) (sy : Nat) (today : Date) : Int :=
  let calcDate := calcDateFor sy today
  let anniv := annivInYear hire sy
  if is_one_year_or_more inList hire calcDate then
    if dateLe anniv ⟨sy, 12, 31⟩ then
      if sy ≤ 2025 then calculate_annual_leave hire anniv
      else if dateLe anniv today then calculate_annual_leave hire anniv
      else 0
    else
      if hire.year ≤ sy - 1 ∧ 1 ≤ sy then
        let prevAnniv := annivInYear hire (sy - 1)
        if dateLt hire prevAnniv then
          if dateLe prevAnniv today then calculate_annual_leave hire prevAnniv else 0
        else 0
      else 0
  else
    if dateLt calcDate hire then 0
    else min (max (monthsPassed hire calcDate) 0) 11

/-! ## Derived quantities named by the spec's testable properties. -/

/-- Spec `usage_to_date`: aggregated consumption since hire, an aggregation
call over the window `[hire, d)`. -/
def usageToDate (rs : List AttRec) (hire d : Date) : ℚ :=
  aggregateWindow rs hire d

/-- Spec `accrual_to_date`: the combined entitlement — the monthly Regime-A
value while tenure is under 365 days, the annual Regime-B value
thereafter (the regime dispatch of the engine, without the name-list
override). -/
def accrualToDate (hire d : Date) : Int :=
  if 365 ≤ diffDays d hire then calculate_annual_leave hire d
  else calculate_monthly_leave hire d

/-! ## Helper lemmas -/

theorem daysInMonth_le_31 (y m : Nat) : daysInMonth y m ≤ 31 := by
  unfold daysInMonth
  split_ifs <;> omega

theorem daysInMonth_shift (y y' m : Nat) (hm : ¬(m = 2)) :
    daysInMonth y' m = daysInMonth y m := by
  unfold daysInMonth
  simp only [if_neg hm]

theorem daysInMonth_feb_ge (y : Nat) : 28 ≤ daysInMonth y 2 := by
  unfold daysInMonth
  split_ifs <;> omega

/-- A valid date that is not Feb 29 stays valid when its year changes. -/
theorem validDate_shift_year (d : Date) (y' : Nat)
    (hv : validDate d) (h29 : ¬(d.month = 2 ∧ d.day = 29)) (hy : 1 ≤ y') :
    validDate ⟨y', d.month, d.day⟩ := by
  obtain ⟨h1, h2, h3, h4, h5⟩ := hv
  refine ⟨hy, h2, h3, h4, ?_⟩
  show d.day ≤ daysInMonth y' d.month
  by_cases hm : d.month = 2
  · rw [hm]
    have hf := daysInMonth_feb_ge y'
    have h28 : d.day ≤ 28 := by
      have h29' : d.day ≠ 29 := fun h => h29 ⟨hm, h⟩
      have hb : daysInMonth d.year d.month ≤ 29 := by
        rw [hm]; unfold daysInMonth; split_ifs <;> omega
      omega
    omega
  · rw [daysInMonth_shift d.year y' _ hm]
    exact h5

/-- For a hire date that is not Feb 29, the anniversary construction
never takes the day−1 fallback. -/
theorem anniversary_eq (hire : Date) (n : Nat)
    (hv : validDate hire) (h29 : ¬(hire.month = 2 ∧ hire.day = 29)) :
    anniversary hire n = ⟨hire.year + n, hire.month, hire.day⟩ := by
  unfold anniversary mkAnnivDate
  rw [if_pos]
  exact validDate_shift_year hire _ hv h29 (by have := hv.1; omega)

theorem yearsPassed_same_monthday (hire : Date) (y : Nat) :
    yearsPassed hire ⟨y, hire.month, hire.day⟩ = (y : Int) - hire.year := by
  unfold yearsPassed
  simp

/-! ## C2: tiered annual entitlement at anniversaries -/

/-- C2 (counterexample): for a hire date of Feb 29, 2024, the first
anniversary is built as Feb 28, 2025 by the day−1 fallback, and the
annual entitlement computed there is 0, not the claimed 15. -/
theorem annual_leave_feb29_zero :
    calculate_annual_leave ⟨2024, 2, 29⟩ (anniversary ⟨2024, 2, 29⟩ 1) = 0 ∧
    ¬(calculate_annual_leave ⟨2024, 2, 29⟩ (anniversary ⟨2024, 2, 29⟩ 1) = 15) := by
  decide

/-- C2 (amended): for every valid hire date other than a Feb 29 one and
every anniversary `n ≥ 1`, the annual entitlement granted at anniversary
`n` is `min (15 + (floor ((n - 3) / 2) + 1 if n ≥ 3 else 0)) 25`, i.e.
15 for n ∈ {1, 2}, then one more unit every two years, capped at 25. -/
theorem annual_leave_at_anniversary (hire : Date) (n : Nat)
    (hv : validDate hire) (h29 : ¬(hire.month = 2 ∧ hire.day = 29)) (hn : 1 ≤ n) :
    calculate_annual_leave hire (anniversary hire n)
      = min (15 + (if 3 ≤ (n : Int) then ((n : Int) - 3) / 2 + 1 else 0)) 25 := by
  rw [anniversary_eq hire n hv h29]
  unfold calculate_annual_leave
  rw [yearsPassed_same_monthday]
  have hcast : ((hire.year + n : Nat) : Int) - hire.year = (n : Int) := by
    push_cast; ring
  rw [hcast]
  have hn' : ¬((n : Int) < 1) := by omega
  rw [if_neg hn']

/-- Witness for C2's amended theorem: hire 2023-05-30 at anniversary 3
receives 16 units. -/
theorem annual_leave_at_anniversary_witness :
    calculate_annual_leave ⟨2023, 5, 30⟩ (anniversary ⟨2023, 5, 30⟩ 3) = 16 := by
  rw [annual_leave_at_anniversary ⟨2023, 5, 30⟩ 3 (by decide) (by decide) (by decide)]
  decide

/-! ## C6: Regime-A monthly entitlement bounds -/

/-- C6 (counterexample): when the target date precedes the hire date the
source returns the raw negative month count — there is no lower clamp at
zero.  Hire 2025-06-15 queried at 2025-01-10 yields −6. -/
theorem monthly_leave_negative :
    calculate_monthly_leave ⟨2025, 6, 15⟩ ⟨2025, 1, 10⟩ = -6 ∧
    calculate_monthly_leave ⟨2025, 6, 15⟩ ⟨2025, 1, 10⟩ < 0 := by
  decide

/-- C6 (amended): the Regime-A monthly entitlement never exceeds 11, and
whenever the target date does not precede the hire date it is also
non-negative — so it equals `clamp(months_elapsed, 0, 11)` on that
domain; for a target before the hire date the value can be negative. -/
theorem monthly_leave_bounds (hire target : Date)
    (hv : validDate hire) (hvt : validDate target) :
    calculate_monthly_leave hire target ≤ 11 ∧
    (dateLe hire target →
      0 ≤ calculate_monthly_leave hire target ∧
      (¬(365 ≤ diffDays target hire) →
        calculate_monthly_leave hire target
          = min (max (monthsPassed hire target) 0) 11)) := by
  obtain ⟨_, hm1, hm2, hd1, _⟩ := hv
  obtain ⟨_, tm1, tm2, td1, _⟩ := hvt
  unfold calculate_monthly_leave
  by_cases h365 : 365 ≤ diffDays target hire
  · rw [if_pos h365]
    refine ⟨by omega, fun _ => ⟨le_refl 0, fun hc => absurd h365 hc⟩⟩
  · rw [if_neg h365]
    have hmp : dateLe hire target → 0 ≤ monthsPassed hire target := by
      intro hle
      unfold dateLe at hle
      unfold monthsPassed
      split_ifs <;> omega
    refine ⟨min_le_right _ _, fun hle => ⟨?_, fun _ => ?_⟩⟩
    · have := hmp hle
      omega
    · have := hmp hle
      omega

/-- Witness for C6's amended theorem at hire 2024-03-10, target
2025-02-10 (eleven completed months, inside Regime A). -/
theorem monthly_leave_bounds_witness :
    calculate_monthly_leave ⟨2024, 3, 10⟩ ⟨2025, 2, 10⟩ ≤ 11 ∧
    0 ≤ calculate_monthly_leave ⟨2024, 3, 10⟩ ⟨2025, 2, 10⟩ := by
  have h := monthly_leave_bounds ⟨2024, 3, 10⟩ ⟨2025, 2, 10⟩ (by decide) (by decide)
  exact ⟨h.1, (h.2 (by decide)).1⟩

/-! ## C5: half-day deduplication in usage aggregation -/

theorem card_insert_erase {d : Date} (X : Finset Date) :
    (insert d X).card = (X.erase d).card + 1 := by
  by_cases h : d ∈ X
  · rw [Finset.insert_eq_self.mpr h, ← Finset.card_erase_add_one h]
  · rw [Finset.card_insert_of_not_mem h, Finset.erase_eq_of_not_mem h]

theorem fullCount_cons_full {r : AttRec} (rs : List AttRec) (hf : isFullDay r = true) :
    fullCount (r :: rs) = fullCount rs + 1 := by
  simp [fullCount, List.filter_cons, hf]

theorem fullCount_cons_notfull {r : AttRec} (rs : List AttRec) (hf : isFullDay r = false) :
    fullCount (r :: rs) = fullCount rs := by
  simp [fullCount, List.filter_cons, hf]

theorem halfDateSet_cons_full {r : AttRec} (rs : List AttRec) (hf : isFullDay r = true) :
    halfDateSet (r :: rs) = halfDateSet rs := by
  simp [halfDateSet, halfDates, List.filter_cons, hf]

theorem halfDateSet_cons_half {r : AttRec} (rs : List AttRec)
    (hf : isFullDay r = false) (hh : isHalfDay r = true) :
    halfDateSet (r :: rs) = insert r.workDate (halfDateSet rs) := by
  simp [halfDateSet, halfDates, List.filter_cons, hf, hh]

theorem halfDateSet_cons_other {r : AttRec} (rs : List AttRec) (hh : isHalfDay r = false) :
    halfDateSet (r :: rs) = halfDateSet rs := by
  simp [halfDateSet, halfDates, List.filter_cons, hh]

theorem mem_halfDateSet {d : Date} {rs : List AttRec} :
    d ∈ halfDateSet rs ↔ d ∈ halfDates rs :=
  List.mem_toFinset

theorem aggStep_full {r : AttRec} (st : ℚ × List Date) (hf : isFullDay r = true) :
    aggStep st r = (st.1 + 1, st.2) := by
  unfold aggStep
  rw [if_pos hf]

theorem aggStep_half_seen {r : AttRec} (st : ℚ × List Date)
    (hf : isFullDay r = false) (hh : isHalfDay r = true)
    (hm : r.workDate ∈ st.2) : aggStep st r = st := by
  unfold aggStep
  rw [if_neg (by simp [hf]), if_pos hh, if_pos hm]

theorem aggStep_half_new {r : AttRec} (st : ℚ × List Date)
    (hf : isFullDay r = false) (hh : isHalfDay r = true)
    (hm : ¬(r.workDate ∈ st.2)) :
    aggStep st r = (st.1 + 1 / 2, r.workDate :: st.2) := by
  unfold aggStep
  rw [if_neg (by simp [hf]), if_pos hh, if_neg hm]

theorem aggStep_other {r : AttRec} (st : ℚ × List Date)
    (hf : isFullDay r = false) (hh : isHalfDay r = false) : aggStep st r = st := by
  unfold aggStep
  rw [if_neg (by simp [hf]), if_neg (by simp [hh])]

/-- Closed form of the aggregation fold from an arbitrary accumulator:
the starting amount, plus one per full-day row, plus half a unit per
distinct half-day date not already in the seen-dates set. -/
theorem aggFold_closed (rs : List AttRec) : ∀ (acc : ℚ) (seen : List Date),
    (rs.foldl aggStep (acc, seen)).1
      = acc + fullCount rs + ((halfDateSet rs \ seen.toFinset).card : ℚ) / 2 := by
  induction rs with
  | nil =>
    intro acc seen
    simp [fullCount, halfDateSet, halfDates]
  | cons r rs ih =>
    intro acc seen
    rw [List.foldl_cons]
    by_cases hf : isFullDay r = true
    · rw [aggStep_full _ hf, ih, fullCount_cons_full rs hf, halfDateSet_cons_full rs hf]
      push_cast
      ring
    · have hf' : isFullDay r = false := by simpa using hf
      rw [fullCount_cons_notfull rs hf']
      by_cases hh : isHalfDay r = true
      · rw [halfDateSet_cons_half rs hf' hh]
        by_cases hm : r.workDate ∈ seen
        · rw [aggStep_half_seen _ hf' hh hm, ih,
            Finset.insert_sdiff_of_mem _ (List.mem_toFinset.mpr hm)]
        · rw [aggStep_half_new _ hf' hh hm, ih, List.toFinset_cons, Finset.sdiff_insert,
            Finset.insert_sdiff_of_not_mem _ (fun hmem => hm (List.mem_toFinset.mp hmem)),
            card_insert_erase]
          push_cast
          ring
      · have hh' : isHalfDay r = false := by simpa using hh
        rw [aggStep_other _ hf' hh', ih, halfDateSet_cons_other rs hh']

/-- The aggregation loop computes one unit per full-day row plus half a
unit per distinct half-day date. -/
theorem aggregateRecords_closed (rs : List AttRec) :
    aggregateRecords rs = fullCount rs + ((halfDateSet rs).card : ℚ) / 2 := by
  unfold aggregateRecords
  rw [aggFold_closed]
  simp

/-- Adding a half-day row whose date already occurs as a half-day date
leaves the aggregate unchanged. -/
theorem aggregateRecords_cons_dup {r : AttRec} (rs : List AttRec)
    (hf : isFullDay r = false) (hh : isHalfDay r = true)
    (hmem : r.workDate ∈ halfDates rs) :
    aggregateRecords (r :: rs) = aggregateRecords rs := by
  rw [aggregateRecords_closed, aggregateRecords_closed,
    fullCount_cons_notfull rs hf, halfDateSet_cons_half rs hf hh,
    Finset.insert_eq_self.mpr (mem_halfDateSet.mpr hmem)]

/-- C5: the aggregation total is one unit per full-day event plus half a
unit per distinct half-day date (so duplicate half-day rows on one date
contribute a single 0.5); the total is invariant under reordering of the
event list; adding a duplicate half-day event to a window changes
nothing; and a window holding exactly two half-day events on the same
date totals 0.5. -/
theorem half_day_dedup :
    (∀ rs : List AttRec,
      aggregateRecords rs = fullCount rs + ((halfDateSet rs).card : ℚ) / 2)
    ∧ (∀ rs rs' : List AttRec, rs.Perm rs' →
        aggregateRecords rs = aggregateRecords rs')
    ∧ (∀ (r : AttRec) (rs : List AttRec) (s e : Date),
        isFullDay r = false → isHalfDay r = true →
        r.workDate ∈ halfDates (windowRecords rs s e) →
        aggregateWindow (r :: rs) s e = aggregateWindow rs s e)
    ∧ (∀ (d : Date) (rm rm' : RMark),
        aggregateRecords [⟨d, .half, rm⟩, ⟨d, .half, rm'⟩] = 1 / 2) := by
  refine ⟨aggregateRecords_closed, ?_, ?_, ?_⟩
  · intro rs rs' hperm
    rw [aggregateRecords_closed, aggregateRecords_closed]
    have h1 : fullCount rs = fullCount rs' :=
      (hperm.filter (fun r => isFullDay r)).length_eq
    have hp : (halfDates rs).Perm (halfDates rs') := by
      unfold halfDates
      exact (hperm.filter (fun r => !isFullDay r && isHalfDay r)).map (·.workDate)
    have h2 : halfDateSet rs = halfDateSet rs' := List.toFinset_eq_of_perm _ _ hp
    rw [h1, h2]
  · intro r rs s e hf hh hmem
    unfold aggregateWindow windowRecords
    rw [List.filter_cons]
    by_cases hw : (decide (dateLe s r.workDate ∧ dateLt r.workDate e)) = true
    · rw [if_pos hw]
      exact aggregateRecords_cons_dup _ hf hh hmem
    · rw [if_neg (by simp_all)]
  · intro d rm rm'
    have hfull : isFullDay ⟨d, .half, rm⟩ = false := by simp [isFullDay]
    have hhalf : isHalfDay ⟨d, .half, rm⟩ = true := by simp [isHalfDay]
    have hfull' : isFullDay ⟨d, .half, rm'⟩ = false := by simp [isFullDay]
    have hhalf' : isHalfDay ⟨d, .half, rm'⟩ = true := by simp [isHalfDay]
    rw [aggregateRecords_closed]
    have h1 : fullCount [⟨d, .half, rm⟩, ⟨d, .half, rm'⟩] = 0 := by
      simp [fullCount, List.filter_cons, hfull, hfull']
    have h2 : halfDateSet [⟨d, .half, rm⟩, ⟨d, .half, rm'⟩] = {d} := by
      simp [halfDateSet, halfDates, List.filter_cons, hfull, hfull', hhalf, hhalf']
    rw [h1, h2]
    simp

/-- Witness for C5: a concrete permuted pair of windows with a duplicated
half-day date, evaluated through the theorem. -/
theorem half_day_dedup_witness :
    aggregateRecords
      [⟨⟨2025, 3, 3⟩, .half, .plain⟩, ⟨⟨2025, 3, 4⟩, .annual, .plain⟩,
       ⟨⟨2025, 3, 3⟩, .half, .halfIn⟩]
      = aggregateRecords
      [⟨⟨2025, 3, 3⟩, .half, .halfIn⟩, ⟨⟨2025, 3, 3⟩, .half, .plain⟩,
       ⟨⟨2025, 3, 4⟩, .annual, .plain⟩]
    ∧ aggregateRecords [⟨⟨2025, 3, 3⟩, .half, .plain⟩, ⟨⟨2025, 3, 3⟩, .half, .halfOut⟩]
        = 1 / 2 := by
  constructor
  · exact half_day_dedup.2.1 _ _ (by decide)
  · exact half_day_dedup.2.2.2 ⟨2025, 3, 3⟩ .plain .halfOut

/-! ## C7: monotonicity of accrual and usage over time -/

theorem dateLe_refl (a : Date) : dateLe a a := by
  unfold dateLe
  omega

theorem dateLe_trans {a b c : Date} (h1 : dateLe a b) (h2 : dateLe b c) : dateLe a c := by
  unfold dateLe at *
  omega

theorem dateLt_le_trans {a b c : Date} (h1 : dateLt a b) (h2 : dateLe b c) : dateLt a c := by
  unfold dateLt dateLe at *
  omega

theorem monthsPassed_mono (hire : Date) {t1 t2 : Date}
    (hv1 : validDate t1) (hv2 : validDate t2) (h : dateLe t1 t2) :
    monthsPassed hire t1 ≤ monthsPassed hire t2 := by
  obtain ⟨_, a1, a2, a3, _⟩ := hv1
  obtain ⟨_, b1, b2, b3, _⟩ := hv2
  unfold dateLe at h
  unfold monthsPassed
  split_ifs <;> omega

theorem yearsPassed_mono (hire : Date) {t1 t2 : Date}
    (hv1 : validDate t1) (hv2 : validDate t2) (h : dateLe t1 t2) :
    yearsPassed hire t1 ≤ yearsPassed hire t2 := by
  obtain ⟨_, a1, a2, a3, _⟩ := hv1
  obtain ⟨_, b1, b2, b3, _⟩ := hv2
  unfold dateLe at h
  unfold yearsPassed
  split_ifs <;> omega

theorem annual_leave_mono (hire : Date) {t1 t2 : Date}
    (hv1 : validDate t1) (hv2 : validDate t2) (h : dateLe t1 t2) :
    calculate_annual_leave hire t1 ≤ calculate_annual_leave hire t2 := by
  have hy := yearsPassed_mono hire hv1 hv2 h
  simp only [calculate_annual_leave]
  split_ifs <;> omega

theorem windowRecords_sublist (rs : List AttRec) (hire : Date) {d1 d2 : Date}
    (h : dateLe d1 d2) :
    (windowRecords rs hire d1).Sublist (windowRecords rs hire d2) := by
  unfold windowRecords
  apply List.monotone_filter_right
  intro a ha
  simp only [decide_eq_true_eq] at *
  exact ⟨ha.1, dateLt_le_trans ha.2 h⟩

/-- C7 (amended): usage-to-date is monotone in the query date, and each
accrual regime is monotone in isolation — the annual entitlement for any
pair of valid dates, the monthly entitlement for dates inside Regime A —
but the combined accrual can drop at the regime transition (see the
counterexample). -/
theorem accrual_usage_monotonicity :
    (∀ (rs : List AttRec) (hire d1 d2 : Date), dateLe d1 d2 →
      usageToDate rs hire d1 ≤ usageToDate rs hire d2)
    ∧ (∀ (hire t1 t2 : Date), validDate t1 → validDate t2 → dateLe t1 t2 →
        calculate_annual_leave hire t1 ≤ calculate_annual_leave hire t2)
    ∧ (∀ (hire t1 t2 : Date), validDate t1 → validDate t2 → dateLe t1 t2 →
        ¬(365 ≤ diffDays t1 hire) → ¬(365 ≤ diffDays t2 hire) →
        calculate_monthly_leave hire t1 ≤ calculate_monthly_leave hire t2) := by
  refine ⟨?_, fun hire t1 t2 hv1 hv2 h => annual_leave_mono hire hv1 hv2 h, ?_⟩
  · intro rs hire d1 d2 h
    unfold usageToDate aggregateWindow
    rw [aggregateRecords_closed, aggregateRecords_closed]
    have hsub := windowRecords_sublist rs hire h
    have h1 : fullCount (windowRecords rs hire d1) ≤ fullCount (windowRecords rs hire d2) := by
      unfold fullCount
      exact (hsub.filter _).length_le
    have h2 : (halfDateSet (windowRecords rs hire d1)).card
        ≤ (halfDateSet (windowRecords rs hire d2)).card := by
      apply Finset.card_le_card
      intro x hx
      rw [mem_halfDateSet] at *
      unfold halfDates at *
      exact ((hsub.filter _).map _).subset hx
    have hq1 : (fullCount (windowRecords rs hire d1) : ℚ)
        ≤ fullCount (windowRecords rs hire d2) := by exact_mod_cast h1
    have hq2 : ((halfDateSet (windowRecords rs hire d1)).card : ℚ)
        ≤ (halfDateSet (windowRecords rs hire d2)).card := by exact_mod_cast h2
    have : ((halfDateSet (windowRecords rs hire d1)).card : ℚ) / 2
        ≤ ((halfDateSet (windowRecords rs hire d2)).card : ℚ) / 2 := by linarith
    linarith
  · intro hire t1 t2 hv1 hv2 h h1 h2
    have hm := monthsPassed_mono hire hv1 hv2 h
    unfold calculate_monthly_leave
    rw [if_neg h1, if_neg h2]
    omega

/-- Witness for C7's amended theorem on concrete data: a window with one
full day and a duplicated half day, queried at two dates, and the two
regime-local monotonicity facts at concrete dates. -/
theorem accrual_usage_monotonicity_witness :
    usageToDate
        [⟨⟨2024, 2, 2⟩, .half, .plain⟩, ⟨⟨2024, 2, 2⟩, .half, .plain⟩,
         ⟨⟨2024, 3, 3⟩, .annual, .plain⟩] ⟨2024, 1, 1⟩ ⟨2024, 2, 10⟩
      ≤ usageToDate
        [⟨⟨2024, 2, 2⟩, .half, .plain⟩, ⟨⟨2024, 2, 2⟩, .half, .plain⟩,
         ⟨⟨2024, 3, 3⟩, .annual, .plain⟩] ⟨2024, 1, 1⟩ ⟨2024, 12, 1⟩
    ∧ calculate_annual_leave ⟨2020, 1, 10⟩ ⟨2023, 1, 10⟩
        ≤ calculate_annual_leave ⟨2020, 1, 10⟩ ⟨2025, 1, 10⟩
    ∧ calculate_monthly_leave ⟨2024, 3, 10⟩ ⟨2024, 6, 10⟩
        ≤ calculate_monthly_leave ⟨2024, 3, 10⟩ ⟨2025, 2, 10⟩ := by
  refine ⟨accrual_usage_monotonicity.1 _ _ _ _ (by decide),
    accrual_usage_monotonicity.2.1 _ _ _ (by decide) (by decide) (by decide),
    accrual_usage_monotonicity.2.2 _ _ _ (by decide) (by decide) (by decide)
      (by decide) (by decide)⟩

/-- C7 (counterexample): for hire 2023-07-01 the first service year
spans Feb 29, 2024; tenure reaches 365 days on 2024-06-30, one day
before the first anniversary; the combined accrual-to-date drops from 11
(Regime A, the day before) to 0 (Regime B, annual entitlement still 0),
so accrual-to-date is not monotone. -/
theorem accrual_not_monotone :
    dateLe ⟨2024, 6, 29⟩ ⟨2024, 6, 30⟩
    ∧ accrualToDate ⟨2023, 7, 1⟩ ⟨2024, 6, 29⟩ = 11
    ∧ accrualToDate ⟨2023, 7, 1⟩ ⟨2024, 6, 30⟩ = 0
    ∧ ¬(accrualToDate ⟨2023, 7, 1⟩ ⟨2024, 6, 29⟩
          ≤ accrualToDate ⟨2023, 7, 1⟩ ⟨2024, 6, 30⟩) := by
  decide

/-! ## C4: idempotent expiration processing -/

theorem hasRec_append_left {recs : List ExpRec} (tail : List ExpRec) {k : EKind} {d : Date}
    (h : hasRec recs k d = true) : hasRec (recs ++ tail) k d = true := by
  unfold hasRec at *
  rw [List.any_append, h, Bool.true_or]

theorem hasRec_append_self (recs : List ExpRec) (k : EKind) (d : Date) (a : ℚ) :
    hasRec (recs ++ [⟨k, d, a⟩]) k d = true := by
  unfold hasRec
  rw [List.any_append]
  simp

/-- A boundary is settled in a record state when its record exists or its
expired amount is not positive — exactly when the engine's step leaves
the state unchanged. -/
def annualSettled (hire : Date) (used : Date → Date → ℚ) (o : Nat)
    (recs : List ExpRec) : Prop :=
  hasRec recs .annual (nextAnnivOf hire o) = true ∨ checkExpiredAmount hire used o ≤ 0

theorem checkAnnualStep_settled (hire : Date) (used : Date → Date → ℚ) (o : Nat)
    (recs : List ExpRec) : annualSettled hire used o (checkAnnualStep hire used o recs) := by
  unfold checkAnnualStep
  split_ifs with h1 h2
  · exact Or.inl h1
  · exact Or.inl (hasRec_append_self recs .annual (nextAnnivOf hire o) _)
  · exact Or.inr (not_lt.mp h2)

theorem checkAnnualStep_of_settled {hire : Date} {used : Date → Date → ℚ} {o : Nat}
    {recs : List ExpRec} (h : annualSettled hire used o recs) :
    checkAnnualStep hire used o recs = recs := by
  unfold checkAnnualStep
  rcases h with h | h
  · rw [if_pos h]
  · split_ifs with h1 h2
    · rfl
    · exact absurd h2 (not_lt.mpr h)
    · rfl

theorem annualSettled_append {hire : Date} {used : Date → Date → ℚ} {o : Nat}
    {recs : List ExpRec} (h : annualSettled hire used o recs) (tail : List ExpRec) :
    annualSettled hire used o (recs ++ tail) := by
  rcases h with h | h
  · exact Or.inl (hasRec_append_left tail h)
  · exact Or.inr h

theorem checkAnnualStep_append (hire : Date) (used : Date → Date → ℚ) (o : Nat)
    (recs : List ExpRec) :
    ∃ tail, checkAnnualStep hire used o recs = recs ++ tail := by
  unfold checkAnnualStep
  split_ifs
  · exact ⟨[], (List.append_nil recs).symm⟩
  · exact ⟨_, rfl⟩
  · exact ⟨[], (List.append_nil recs).symm⟩

theorem checkAnnualWalkAux_append (hire target : Date) (used : Date → Date → ℚ) :
    ∀ (fuel o : Nat) (recs : List ExpRec),
      ∃ tail, checkAnnualWalkAux hire target used fuel o recs = recs ++ tail := by
  intro fuel
  induction fuel with
  | zero =>
    intro o recs
    exact ⟨[], (List.append_nil recs).symm⟩
  | succ n ih =>
    intro o recs
    simp only [checkAnnualWalkAux]
    split_ifs with hle
    · obtain ⟨t1, ht1⟩ := checkAnnualStep_append hire used o recs
      obtain ⟨t2, ht2⟩ := ih (o + 1) (checkAnnualStep hire used o recs)
      exact ⟨t1 ++ t2, by rw [ht2, ht1, List.append_assoc]⟩
    · exact ⟨[], (List.append_nil recs).symm⟩

theorem mkAnnivDate_year (y m d : Nat) : (mkAnnivDate y m d).year = y := by
  unfold mkAnnivDate
  split_ifs <;> rfl

theorem anniversary_year (hire : Date) (o : Nat) :
    (anniversary hire o).year = hire.year + o :=
  mkAnnivDate_year _ _ _

theorem nextAnnivOf_year (hire : Date) (o : Nat) :
    (nextAnnivOf hire o).year = hire.year + o + 1 := by
  unfold nextAnnivOf
  rw [mkAnnivDate_year, anniversary_year]

theorem nextAnnivOf_mono (hire : Date) {o o' : Nat} (h : o ≤ o') :
    dateLe (nextAnnivOf hire o) (nextAnnivOf hire o') := by
  rcases Nat.eq_or_lt_of_le h with he | hlt
  · rw [he]
    exact dateLe_refl _
  · unfold dateLe
    left
    rw [nextAnnivOf_year, nextAnnivOf_year]
    omega

theorem checkAnnualWalkAux_settled (hire target : Date) (used : Date → Date → ℚ) :
    ∀ (fuel o : Nat) (recs : List ExpRec) (j : Nat), o ≤ j → j < o + fuel →
      dateLe (nextAnnivOf hire j) target →
      annualSettled hire used j (checkAnnualWalkAux hire target used fuel o recs) := by
  intro fuel
  induction fuel with
  | zero =>
    intro o recs j h1 h2
    omega
  | succ n ih =>
    intro o recs j h1 h2 hj
    simp only [checkAnnualWalkAux]
    split_ifs with hle
    · rcases Nat.eq_or_lt_of_le h1 with he | hlt
      · subst he
        obtain ⟨tail, ht⟩ :=
          checkAnnualWalkAux_append hire target used n (o + 1) (checkAnnualStep hire used o recs)
        rw [ht]
        exact annualSettled_append (checkAnnualStep_settled hire used o recs) tail
      · exact ih (o + 1) _ j hlt (by omega) hj
    · exact absurd (dateLe_trans (nextAnnivOf_mono hire h1) hj) hle

theorem checkAnnualWalkAux_of_settled (hire target : Date) (used : Date → Date → ℚ) :
    ∀ (fuel o : Nat) (recs : List ExpRec),
      (∀ j, o ≤ j → j < o + fuel → dateLe (nextAnnivOf hire j) target →
        annualSettled hire used j recs) →
      checkAnnualWalkAux hire target used fuel o recs = recs := by
  intro fuel
  induction fuel with
  | zero =>
    intro o recs _
    rfl
  | succ n ih =>
    intro o recs hset
    simp only [checkAnnualWalkAux]
    split_ifs with hle
    · rw [checkAnnualStep_of_settled (hset o le_rfl (by omega) hle)]
      exact ih (o + 1) recs (fun j hj1 hj2 hj3 => hset j (by omega) (by omega) hj3)
    · rfl

/-- Rerunning the annual expiration walk over its own output is a no-op. -/
theorem checkAnnualWalk_idem (inList : Bool) (hire target : Date)
    (used : Date → Date → ℚ) (recs : List ExpRec) :
    checkAnnualWalk inList hire target used (checkAnnualWalk inList hire target used recs)
      = checkAnnualWalk inList hire target used recs := by
  unfold checkAnnualWalk
  split_ifs with h
  · exact checkAnnualWalkAux_of_settled hire target used 49 1 _
      (fun j hj1 hj2 hj3 => checkAnnualWalkAux_settled hire target used 49 1 recs j hj1 hj2 hj3)
  · rfl

theorem countRec_append (recs recs' : List ExpRec) (k : EKind) (d : Date) :
    countRec (recs ++ recs') k d = countRec recs k d + countRec recs' k d := by
  simp [countRec, List.filter_append]

theorem countRec_zero_of_not_hasRec {recs : List ExpRec} {k : EKind} {d : Date}
    (h : hasRec recs k d = false) : countRec recs k d = 0 := by
  unfold hasRec at h
  unfold countRec
  rw [List.length_eq_zero, List.filter_eq_nil_iff]
  intro a ha
  rw [List.any_eq_false] at h
  exact h a ha

theorem checkAnnualStep_count {hire : Date} {used : Date → Date → ℚ} {o : Nat}
    {recs : List ExpRec} (h : ∀ k d, countRec recs k d ≤ 1) :
    ∀ k d, countRec (checkAnnualStep hire used o recs) k d ≤ 1 := by
  intro k d
  unfold checkAnnualStep
  split_ifs with h1 h2
  · exact h k d
  · rw [countRec_append]
    by_cases he : EKind.annual = k ∧ nextAnnivOf hire o = d
    · obtain ⟨hk, hd⟩ := he
      subst hk
      subst hd
      rw [countRec_zero_of_not_hasRec (by simpa using h1)]
      simp [countRec]
    · have hz : countRec [⟨.annual, nextAnnivOf hire o, checkExpiredAmount hire used o⟩] k d = 0 := by
        have hdec : decide (EKind.annual = k ∧ nextAnnivOf hire o = d) = false :=
          decide_eq_false he
        simp only [countRec, List.filter, hdec]
        rfl
      rw [hz]
      have := h k d
      omega
  · exact h k d

theorem checkAnnualWalkAux_count (hire target : Date) (used : Date → Date → ℚ) :
    ∀ (fuel o : Nat) (recs : List ExpRec), (∀ k d, countRec recs k d ≤ 1) →
      ∀ k d, countRec (checkAnnualWalkAux hire target used fuel o recs) k d ≤ 1 := by
  intro fuel
  induction fuel with
  | zero =>
    intro o recs h
    exact h
  | succ n ih =>
    intro o recs h
    simp only [checkAnnualWalkAux]
    split_ifs with hle
    · exact ih (o + 1) _ (checkAnnualStep_count h)
    · exact h

theorem checkAnnualWalk_count (inList : Bool) (hire target : Date)
    (used : Date → Date → ℚ) (recs : List ExpRec)
    (h : ∀ k d, countRec recs k d ≤ 1) :
    ∀ k d, countRec (checkAnnualWalk inList hire target used recs) k d ≤ 1 := by
  unfold checkAnnualWalk
  split_ifs with hone
  · exact checkAnnualWalkAux_count hire target used 49 1 recs h
  · exact h

/-- Rerunning the monthly expiration check over its own output is a no-op. -/
theorem checkMonthlyWalk_idem (inList : Bool) (hire target : Date)
    (ub : Date → ℚ) (recs : List ExpRec) :
    checkMonthlyWalk inList hire target ub (checkMonthlyWalk inList hire target ub recs)
      = checkMonthlyWalk inList hire target ub recs := by
  by_cases h1 : is_one_year_or_more inList hire target = true
  · simp only [checkMonthlyWalk, if_pos h1]
  · simp only [checkMonthlyWalk, if_neg h1]
    by_cases h2 : dateLe (mkAnnivDate (hire.year + 1) hire.month hire.day) target
    · simp only [if_pos h2]
      by_cases h3 : hasRec recs .monthly (mkAnnivDate (hire.year + 1) hire.month hire.day) = true
      · simp only [if_pos h3]
      · simp only [if_neg h3]
        by_cases h4 : (0 : ℚ) <
            (min 11 (calculate_monthly_leave hire
              (prevDay (mkAnnivDate (hire.year + 1) hire.month hire.day))) : ℚ)
              - ub (mkAnnivDate (hire.year + 1) hire.month hire.day)
        · simp only [if_pos h4]
          rw [if_pos (hasRec_append_self recs .monthly
            (mkAnnivDate (hire.year + 1) hire.month hire.day) _)]
        · simp only [if_neg h4, if_neg h3]
    · simp only [if_neg h2]

theorem checkMonthlyWalk_count (inList : Bool) (hire target : Date)
    (ub : Date → ℚ) (recs : List ExpRec)
    (h : ∀ k d, countRec recs k d ≤ 1) :
    ∀ k d, countRec (checkMonthlyWalk inList hire target ub recs) k d ≤ 1 := by
  intro k d
  simp only [checkMonthlyWalk]
  split_ifs with h1 h2 h3 h4
  · exact h k d
  · exact h k d
  · rw [countRec_append]
    by_cases he : EKind.monthly = k ∧ mkAnnivDate (hire.year + 1) hire.month hire.day = d
    · obtain ⟨hk, hd⟩ := he
      subst hk
      subst hd
      rw [countRec_zero_of_not_hasRec (by simpa using h3)]
      simp [countRec]
    · have hz : countRec [⟨.monthly, mkAnnivDate (hire.year + 1) hire.month hire.day,
          (min 11 (calculate_monthly_leave hire
            (prevDay (mkAnnivDate (hire.year + 1) hire.month hire.day))) : ℚ)
            - ub (mkAnnivDate (hire.year + 1) hire.month hire.day)⟩] k d = 0 := by
        have hdec : decide (EKind.monthly = k ∧
            mkAnnivDate (hire.year + 1) hire.month hire.day = d) = false :=
          decide_eq_false he
        simp only [countRec, List.filter, hdec]
        rfl
      rw [hz]
      have := h k d
      omega
  · exact h k d
  · exact h k d

/-- C4: both expiration walks are idempotent — rerunning either over its
own output adds no record and changes no amount — and each preserves the
at-most-one-record-per-(kind, expiration date) invariant. -/
theorem expiration_idempotent (inList : Bool) (hire target : Date)
    (used : Date → Date → ℚ) (ub : Date → ℚ) (recs : List ExpRec) :
    (checkAnnualWalk inList hire target used (checkAnnualWalk inList hire target used recs)
        = checkAnnualWalk inList hire target used recs)
    ∧ (checkMonthlyWalk inList hire target ub (checkMonthlyWalk inList hire target ub recs)
        = checkMonthlyWalk inList hire target ub recs)
    ∧ ((∀ k d, countRec recs k d ≤ 1) →
        (∀ k d, countRec (checkAnnualWalk inList hire target used recs) k d ≤ 1)
        ∧ (∀ k d, countRec (checkMonthlyWalk inList hire target ub recs) k d ≤ 1)) :=
  ⟨checkAnnualWalk_idem inList hire target used recs,
   checkMonthlyWalk_idem inList hire target ub recs,
   fun h => ⟨checkAnnualWalk_count inList hire target used recs h,
             checkMonthlyWalk_count inList hire target ub recs h⟩⟩

/-- Witness for C4 at a concrete employee: hire 2020-01-10 queried at
2026-01-01 starting from an empty record store. -/
theorem expiration_idempotent_witness :
    (checkAnnualWalk false ⟨2020, 1, 10⟩ ⟨2026, 1, 1⟩ (fun _ _ => 0)
        (checkAnnualWalk false ⟨2020, 1, 10⟩ ⟨2026, 1, 1⟩ (fun _ _ => 0) [])
      = checkAnnualWalk false ⟨2020, 1, 10⟩ ⟨2026, 1, 1⟩ (fun _ _ => 0) [])
    ∧ (∀ k d, countRec (checkAnnualWalk false ⟨2020, 1, 10⟩ ⟨2026, 1, 1⟩
        (fun _ _ => 0) []) k d ≤ 1) := by
  have h := expiration_idempotent false ⟨2020, 1, 10⟩ ⟨2026, 1, 1⟩
    (fun _ _ => 0) (fun _ => 0) []
  exact ⟨h.1, (h.2.2 (fun k d => by simp [countRec])).1⟩

/-! ## C3: expired amounts recorded at anniversary boundaries -/

theorem refreshStep_mem {hire : Date} {used : Date → Date → ℚ} {o : Nat}
    {recs : List ExpRec} {r : ExpRec} (hm : r ∈ refreshStep hire used o recs) :
    r ∈ recs ∨ (r.exDate = anniversary hire o
      ∧ r.amount = specExpiredAmount hire used o ∧ 0 < r.amount) := by
  unfold refreshStep at hm
  split_ifs at hm with h1 h2
  · exact Or.inl hm
  · rcases List.mem_append.mp hm with hm' | hm'
    · exact Or.inl hm'
    · right
      have hr : r = ⟨.annual, anniversary hire o, refreshExpiredAmount hire used o⟩ := by
        simpa using hm'
      subst hr
      exact ⟨rfl, rfl, h2⟩
  · exact Or.inl hm

theorem refreshWalkAux_mem (hire current : Date) (used : Date → Date → ℚ) :
    ∀ (fuel o : Nat) (recs : List ExpRec) (r : ExpRec),
      r ∈ refreshWalkAux hire current used fuel o recs →
      r ∈ recs ∨ ∃ o', o ≤ o' ∧ r.exDate = anniversary hire o'
        ∧ r.amount = specExpiredAmount hire used o' ∧ 0 < r.amount := by
  intro fuel
  induction fuel with
  | zero =>
    intro o recs r hm
    exact Or.inl hm
  | succ n ih =>
    intro o recs r hm
    simp only [refreshWalkAux] at hm
    split_ifs at hm with hlt
    · exact Or.inl hm
    · rcases ih (o + 1) _ r hm with hm' | ⟨o', ho', hd, ha, hp⟩
      · rcases refreshStep_mem hm' with hm'' | ⟨hd, ha, hp⟩
        · exact Or.inl hm''
        · exact Or.inr ⟨o, le_rfl, hd, ha, hp⟩
      · exact Or.inr ⟨o', by omega, hd, ha, hp⟩

theorem checkAnnualStep_mem {hire : Date} {used : Date → Date → ℚ} {o : Nat}
    {recs : List ExpRec} {r : ExpRec} (hm : r ∈ checkAnnualStep hire used o recs) :
    r ∈ recs ∨ (r.exDate = nextAnnivOf hire o
      ∧ r.amount = checkExpiredAmount hire used o ∧ 0 < r.amount) := by
  unfold checkAnnualStep at hm
  split_ifs at hm with h1 h2
  · exact Or.inl hm
  · rcases List.mem_append.mp hm with hm' | hm'
    · exact Or.inl hm'
    · right
      have hr : r = ⟨.annual, nextAnnivOf hire o, checkExpiredAmount hire used o⟩ := by
        simpa using hm'
      subst hr
      exact ⟨rfl, rfl, h2⟩
  · exact Or.inl hm

theorem checkAnnualWalkAux_mem (hire target : Date) (used : Date → Date → ℚ) :
    ∀ (fuel o : Nat) (recs : List ExpRec) (r : ExpRec),
      r ∈ checkAnnualWalkAux hire target used fuel o recs →
      r ∈ recs ∨ ∃ o', o ≤ o' ∧ r.exDate = nextAnnivOf hire o'
        ∧ r.amount = checkExpiredAmount hire used o' ∧ 0 < r.amount := by
  intro fuel
  induction fuel with
  | zero =>
    intro o recs r hm
    exact Or.inl hm
  | succ n ih =>
    intro o recs r hm
    simp only [checkAnnualWalkAux] at hm
    split_ifs at hm with hle
    · rcases ih (o + 1) _ r hm with hm' | ⟨o', ho', hd, ha, hp⟩
      · rcases checkAnnualStep_mem hm' with hm'' | ⟨hd, ha, hp⟩
        · exact Or.inl hm''
        · exact Or.inr ⟨o, le_rfl, hd, ha, hp⟩
      · exact Or.inr ⟨o', by omega, hd, ha, hp⟩
    · exact Or.inl hm

/-- C3 (amended): every record created by the `refresh_data` expiration
walk carries the spec's clamped delta amount
`max(0, generated − used)` for its boundary, but every record created by
`check_annual_leave_expiration` instead carries the unclamped absolute
amount `entitlement(period start) − used`, recorded only when positive —
the two formulas disagree (see the counterexample). -/
theorem expiration_walk_amounts (inList : Bool) (hire current target : Date)
    (used : Date → Date → ℚ) (recs : List ExpRec) (r : ExpRec) :
    (r ∈ refreshWalk hire current used recs →
      r ∈ recs ∨ ∃ o, 1 ≤ o ∧ r.exDate = anniversary hire o
        ∧ r.amount = specExpiredAmount hire used o ∧ 0 < r.amount)
    ∧ (r ∈ checkAnnualWalk inList hire target used recs →
      r ∈ recs ∨ ∃ o, 1 ≤ o ∧ r.exDate = nextAnnivOf hire o
        ∧ r.amount = checkExpiredAmount hire used o ∧ 0 < r.amount) := by
  constructor
  · intro hm
    exact refreshWalkAux_mem hire current used 50 1 recs r hm
  · intro hm
    unfold checkAnnualWalk at hm
    split_ifs at hm with h
    · exact checkAnnualWalkAux_mem hire target used 49 1 recs r hm
    · exact Or.inl hm

set_option maxRecDepth 8000 in
theorem checkAnnualWalk_concrete :
    checkAnnualWalk false ⟨2020, 1, 10⟩ ⟨2026, 1, 1⟩ (fun _ _ => 0) []
      = [⟨.annual, ⟨2022, 1, 10⟩, 15⟩, ⟨.annual, ⟨2023, 1, 10⟩, 15⟩,
         ⟨.annual, ⟨2024, 1, 10⟩, 16⟩, ⟨.annual, ⟨2025, 1, 10⟩, 16⟩] := by
  norm_num +decide [checkAnnualWalk, checkAnnualWalkAux, checkAnnualStep, checkExpiredAmount,
    nextAnnivOf, anniversary, mkAnnivDate, hasRec, is_one_year_or_more, calculate_annual_leave,
    yearsPassed, diffDays, toOrdinal, daysBeforeMonth, validDate, daysInMonth, isLeapYear, dateLe]

set_option maxRecDepth 8000 in
theorem refreshWalk_concrete :
    refreshWalk ⟨2020, 1, 10⟩ ⟨2026, 1, 1⟩ (fun _ _ => 0) []
      = [⟨.annual, ⟨2022, 1, 10⟩, 15⟩, ⟨.annual, ⟨2024, 1, 10⟩, 1⟩] := by
  norm_num +decide [refreshWalk, refreshWalkAux, refreshStep, refreshExpiredAmount,
    refreshGenerated, refreshPeriodStart, prevDay, anniversary, mkAnnivDate, hasRec,
    calculate_annual_leave, yearsPassed, validDate, daysInMonth, isLeapYear, dateLt, max_def]

theorem specExpired_concrete :
    specExpiredAmount ⟨2020, 1, 10⟩ (fun _ _ => 0) 4 = 1 := by
  norm_num +decide [specExpiredAmount, refreshPeriodStart, anniversary, mkAnnivDate, prevDay,
    calculate_annual_leave, yearsPassed, validDate, daysInMonth, isLeapYear, max_def]

/-- Witness for C3's amended theorem: the first record of the concrete
refresh walk for hire 2020-01-10 matches the spec formula. -/
theorem expiration_walk_amounts_witness :
    (⟨.annual, ⟨2022, 1, 10⟩, (15 : ℚ)⟩ : ExpRec)
        ∈ refreshWalk ⟨2020, 1, 10⟩ ⟨2026, 1, 1⟩ (fun _ _ => 0) []
    ∧ ((⟨.annual, ⟨2022, 1, 10⟩, (15 : ℚ)⟩ : ExpRec) ∈ ([] : List ExpRec)
        ∨ ∃ o, 1 ≤ o
          ∧ (⟨2022, 1, 10⟩ : Date) = anniversary ⟨2020, 1, 10⟩ o
          ∧ (15 : ℚ) = specExpiredAmount ⟨2020, 1, 10⟩ (fun _ _ => 0) o
          ∧ (0 : ℚ) < 15) := by
  have hmem : (⟨.annual, ⟨2022, 1, 10⟩, (15 : ℚ)⟩ : ExpRec)
      ∈ refreshWalk ⟨2020, 1, 10⟩ ⟨2026, 1, 1⟩ (fun _ _ => 0) [] := by
    rw [refreshWalk_concrete]
    simp
  exact ⟨hmem,
    (expiration_walk_amounts false ⟨2020, 1, 10⟩ ⟨2026, 1, 1⟩ ⟨2026, 1, 1⟩
      (fun _ _ => 0) [] _).1 hmem⟩

/-- C3 (counterexample): with no usage, at the boundary 2024-01-10 of a
2020-01-10 hire, `check_annual_leave_expiration` records 16 (the whole
absolute entitlement at the period's starting anniversary), while the
spec's delta formula for the same boundary gives 1. -/
theorem expiration_amount_mismatch :
    (⟨.annual, ⟨2024, 1, 10⟩, (16 : ℚ)⟩ : ExpRec)
        ∈ checkAnnualWalk false ⟨2020, 1, 10⟩ ⟨2026, 1, 1⟩ (fun _ _ => 0) []
    ∧ anniversary ⟨2020, 1, 10⟩ 4 = ⟨2024, 1, 10⟩
    ∧ specExpiredAmount ⟨2020, 1, 10⟩ (fun _ _ => 0) 4 = 1
    ∧ ¬((16 : ℚ) = specExpiredAmount ⟨2020, 1, 10⟩ (fun _ _ => 0) 4) := by
  refine ⟨?_, by decide, specExpired_concrete, ?_⟩
  · rw [checkAnnualWalk_concrete]
    simp
  · rw [specExpired_concrete]
    norm_num

/-! ## C1: the published remaining-balance formula -/

/-- C1: the published remaining balance is
`(year_accrual − year_usage) + carry_in_after_expiration` in both query
epochs; the carried-forward amount is clamped at zero wherever an
expiration has been deducted; the current-year part is never clamped, so
the result is negative whenever usage exceeds accrual plus effective
carry-in. -/
theorem published_remaining_formula (g u p e ub : ℚ) (b : Bool) :
    remainingLe2025 g u p e = (g - u) + carryFinalLe2025 p e
    ∧ 0 ≤ carryFinalLe2025 p e
    ∧ (g + carryFinalLe2025 p e < u → remainingLe2025 g u p e < 0)
    ∧ remainingStep2 g u (carryFinalGe2026 p ub b) = (g - u) + carryFinalGe2026 p ub b
    ∧ (b = true → 0 ≤ carryFinalGe2026 p ub b) := by
  refine ⟨rfl, le_max_left 0 _, ?_, rfl, ?_⟩
  · intro h
    unfold remainingLe2025 remainingStep2 carryFinalLe2025 at *
    linarith
  · intro hb
    subst hb
    simp only [carryFinalGe2026, if_pos]
    exact le_max_left 0 _

/-- Witness for C1 at accrual 1, usage 5, prior remainder 2, expiration 1:
remaining is negative and not clamped. -/
theorem published_remaining_formula_witness :
    remainingLe2025 1 5 2 1 = (1 - 5) + carryFinalLe2025 2 1
    ∧ remainingLe2025 1 5 2 1 < 0
    ∧ 0 ≤ carryFinalGe2026 2 1 true := by
  have h := published_remaining_formula 1 5 2 1 1 true
  refine ⟨h.1, h.2.2.1 ?_, h.2.2.2.2 rfl⟩
  norm_num [carryFinalLe2025]

/-! ## C8: manual monthly overrides and the anniversary rule -/

/-- C8 (counterexample): a manual value for March with an anniversary in
June of the same report year is excluded from the total but no warning is
raised — the warning only fires for the month containing the anniversary,
not for every month at or before it. -/
theorem override_no_warning_before_anniversary :
    (overrideStep ⟨2025, 6, 15⟩ 2025 3 2).1 = 0
    ∧ (overrideStep ⟨2025, 6, 15⟩ 2025 3 2).2 = false
    ∧ (3 : Nat) ≤ (⟨2025, 6, 15⟩ : Date).month := by
  decide

/-- C8 (amended): with the anniversary inside the report year, an
override for a month strictly before the anniversary month is silently
excluded (no warning), one for the anniversary month itself is excluded
with the warning, and one for a later month is added; when the
anniversary falls after the report year the override is always added. -/
theorem override_step_behavior (sy m : Nat) (anniv : Date) (v : ℚ)
    (hm1 : 1 ≤ m) (hm2 : m ≤ 12)
    (ha2 : anniv.month ≤ 12) (ha3 : 1 ≤ anniv.day) (ha4 : anniv.day ≤ 31) :
    (anniv.year = sy → m < anniv.month → overrideStep anniv sy m v = (0, false))
    ∧ (anniv.year = sy → m = anniv.month → overrideStep anniv sy m v = (0, true))
    ∧ (anniv.year = sy → anniv.month < m → overrideStep anniv sy m v = (v, false))
    ∧ (sy < anniv.year → overrideStep anniv sy m v = (v, false)) := by
  refine ⟨?_, ?_, ?_, ?_⟩
  · intro hy hm
    simp only [overrideStep, monthStart, monthEnd, dateLe, dateLt]
    split_ifs <;> first | rfl | (exfalso; (try dsimp only at *); omega)
  · intro hy hm
    simp only [overrideStep, monthStart, monthEnd, dateLe, dateLt]
    split_ifs <;> first | rfl | (exfalso; (try dsimp only at *); omega)
  · intro hy hm
    simp only [overrideStep, monthStart, monthEnd, dateLe, dateLt]
    split_ifs <;> first | rfl | (exfalso; (try dsimp only at *); omega)
  · intro hy
    simp only [overrideStep, monthStart, monthEnd, dateLe, dateLt]
    split_ifs <;> first | rfl | (exfalso; (try dsimp only at *); omega)

/-- Witness for C8's amended theorem at the concrete anniversary
2025-06-15. -/
theorem override_step_behavior_witness :
    overrideStep ⟨2025, 6, 15⟩ 2025 3 (2 : ℚ) = (0, false)
    ∧ overrideStep ⟨2025, 6, 15⟩ 2025 6 (2 : ℚ) = (0, true)
    ∧ overrideStep ⟨2025, 6, 15⟩ 2025 9 (2 : ℚ) = ((2 : ℚ), false)
    ∧ overrideStep ⟨2026, 6, 15⟩ 2025 2 (2 : ℚ) = ((2 : ℚ), false) := by
  have h3 := override_step_behavior 2025 3 ⟨2025, 6, 15⟩ (2 : ℚ)
    (by decide) (by decide) (by decide) (by decide) (by decide)
  have h6 := override_step_behavior 2025 6 ⟨2025, 6, 15⟩ (2 : ℚ)
    (by decide) (by decide) (by decide) (by decide) (by decide)
  have h9 := override_step_behavior 2025 9 ⟨2025, 6, 15⟩ (2 : ℚ)
    (by decide) (by decide) (by decide) (by decide) (by decide)
  have h2 := override_step_behavior 2025 2 ⟨2026, 6, 15⟩ (2 : ℚ)
    (by decide) (by decide) (by decide) (by decide) (by decide)
  exact ⟨h3.1 rfl (by decide), h6.2.1 rfl rfl, h9.2.2.1 rfl (by decide),
    h2.2.2.2 (by decide)⟩

/-! ## C9: cached prior-year snapshot versus recomputation -/

/-- C9 (counterexample): with identical event data (none at all) and one
manual override of 2 units for September (after the June anniversary),
the remaining balance that gets persisted for 2025 — the value a 2026
query reads back as carry-in — differs from what the no-snapshot fallback
recomputes, because the fallback formula has no manual-override input. -/
theorem cached_carry_mismatch :
    storedRemaining ((calculate_annual_leave ⟨2023, 6, 15⟩ ⟨2025, 6, 15⟩ : Int) : ℚ)
        (aggregateWindow [] ⟨2025, 6, 15⟩ ⟨2026, 1, 1⟩)
        (manualTotal ⟨2025, 6, 15⟩ 2025 [(9, 2)]) 6
      ≠ fallbackCarry ((calculate_annual_leave ⟨2023, 6, 15⟩ ⟨2025, 6, 15⟩ : Int) : ℚ)
        (aggregateWindow [] ⟨2025, 6, 15⟩ ⟨2026, 1, 1⟩) 6 := by
  have h1 : calculate_annual_leave ⟨2023, 6, 15⟩ ⟨2025, 6, 15⟩ = 15 := by decide
  have h2 : aggregateWindow ([] : List AttRec) ⟨2025, 6, 15⟩ ⟨2026, 1, 1⟩ = 0 := rfl
  have h3 : manualTotal ⟨2025, 6, 15⟩ 2025 [(9, 2)] = 2 := by
    norm_num [manualTotal, overrideStep, monthStart, monthEnd, dateLe, dateLt]
  rw [h1, h2, h3]
  norm_num [storedRemaining, fallbackCarry, remainingStep2]

/-- C9 (amended): the persisted remaining balance agrees with the
fallback recomputation exactly on inputs whose manual-override
contribution vanishes (given that the entitlement, event-derived usage
and carry components coincide, as they are shared inputs here). -/
theorem cached_carry_no_manual (g u c : ℚ) (anniv : Date) (sy : Nat)
    (vals : List (Nat × ℚ)) (h : manualTotal anniv sy vals = 0) :
    storedRemaining g u (manualTotal anniv sy vals) c = fallbackCarry g u c := by
  rw [h]
  unfold storedRemaining fallbackCarry remainingStep2
  ring

/-- Witness for C9's amended theorem with an empty override table. -/
theorem cached_carry_no_manual_witness :
    storedRemaining 15 0 (manualTotal ⟨2025, 6, 15⟩ 2025 []) 6 = fallbackCarry 15 0 6 :=
  cached_carry_no_manual 15 0 6 ⟨2025, 6, 15⟩ 2025 [] (by simp [manualTotal])

/-! ## C10: the hardcoded long-tenure allow-list -/

/-- C10 (counterexample): an allow-listed employee hired 2024-08-01,
queried for 2025 on 2025-03-15 — 226 days of tenure, under one year —
is routed to the annual path, but with `selected_year <= 2025` there is
no TODAY gate and the engine grants the full first-year entitlement 15
at the future in-year anniversary, not the claimed 0. -/
theorem allowlist_annual_grant_not_zero :
    is_one_year_or_more true ⟨2024, 8, 1⟩ (calcDateFor 2025 ⟨2025, 3, 15⟩) = true
    ∧ diffDays (calcDateFor 2025 ⟨2025, 3, 15⟩) ⟨2024, 8, 1⟩ < 365
    ∧ leaveGenerated true ⟨2024, 8, 1⟩ 2025 ⟨2025, 3, 15⟩ = 15
    ∧ ¬(leaveGenerated true ⟨2024, 8, 1⟩ 2025 ⟨2025, 3, 15⟩ = 0) := by
  decide

/-- C10 (amended): a name on the allow-list makes `is_one_year_or_more`
true for every hire and target date (even a target before the hire
date), so such an employee is always routed to the annual path; for an
allow-listed employee hired during the report year that path yields 0
(the annual function is 0 before the first full year), whereas without
the allow-list the same inputs inside Regime A receive the monthly
accrual `clamp(months_elapsed, 0, 11)`; but an allow-listed employee
hired the previous year — still under one year of tenure until the
anniversary — receives the full first-year grant of 15 for a query of
2025 or earlier, not 0. -/
theorem allowlist_forces_annual_regime (hire target : Date) (sy : Nat) (today : Date) :
    is_one_year_or_more true hire target = true
    ∧ (validDate hire → hire.year = sy → leaveGenerated true hire sy today = 0)
    ∧ (¬(365 ≤ diffDays (calcDateFor sy today) hire) →
        ¬ dateLt (calcDateFor sy today) hire →
        leaveGenerated false hire sy today
          = min (max (monthsPassed hire (calcDateFor sy today)) 0) 11)
    ∧ (validDate hire → ¬(hire.month = 2 ∧ hire.day = 29) →
        hire.year + 1 = sy → sy ≤ 2025 →
        leaveGenerated true hire sy today = 15) := by
  refine ⟨rfl, ?_, ?_, ?_⟩
  · intro hv hy
    simp only [leaveGenerated]
    have hone : is_one_year_or_more true hire (calcDateFor sy today) = true := rfl
    rw [if_pos hone]
    have heta : (⟨hire.year, hire.month, hire.day⟩ : Date) = hire := rfl
    have hanniv : annivInYear hire sy = hire := by
      unfold annivInYear mkAnnivDate
      rw [← hy, heta, if_pos hv]
    rw [hanniv]
    have hled : dateLe hire ⟨sy, 12, 31⟩ := by
      obtain ⟨_, _, h3, _, h5⟩ := hv
      have h31 := daysInMonth_le_31 hire.year hire.month
      unfold dateLe
      dsimp only
      omega
    rw [if_pos hled]
    have hyp : yearsPassed hire hire = 0 := by
      unfold yearsPassed
      simp
    have hE : calculate_annual_leave hire hire = 0 := by
      simp only [calculate_annual_leave, hyp]
      rfl
    split_ifs with h1 h2
    · exact hE
    · exact hE
    · rfl
  · intro h365 hlt
    simp only [leaveGenerated]
    have hone : is_one_year_or_more false hire (calcDateFor sy today) = false := by
      unfold is_one_year_or_more
      simp only [Bool.false_or]
      exact decide_eq_false h365
    rw [if_neg (by rw [hone]; exact Bool.false_ne_true), if_neg hlt]
  · intro hv h29 hsy h2025
    simp only [leaveGenerated]
    have hone : is_one_year_or_more true hire (calcDateFor sy today) = true := rfl
    rw [if_pos hone]
    have hshift : validDate ⟨sy, hire.month, hire.day⟩ := by
      exact validDate_shift_year hire sy hv h29 (by omega)
    have hanniv : annivInYear hire sy = ⟨sy, hire.month, hire.day⟩ := by
      unfold annivInYear mkAnnivDate
      rw [if_pos hshift]
    rw [hanniv]
    have hled : dateLe (⟨sy, hire.month, hire.day⟩ : Date) ⟨sy, 12, 31⟩ := by
      obtain ⟨_, _, h3, _, h5⟩ := hv
      have h31 := daysInMonth_le_31 hire.year hire.month
      unfold dateLe
      dsimp only
      omega
    rw [if_pos hled, if_pos h2025]
    have hyp1 : yearsPassed hire ⟨sy, hire.month, hire.day⟩ = 1 := by
      rw [yearsPassed_same_monthday]
      omega
    simp only [calculate_annual_leave, hyp1]
    norm_num

/-- Witness for C10's amended theorem: an allow-listed employee hired
2025-03-13 gets 0 generated units for 2025, the non-listed monthly path
at the same dates gives the clamped month count, and an allow-listed
employee hired 2024-08-01 gets 15 for a 2025 query run in March 2025. -/
theorem allowlist_forces_annual_regime_witness :
    is_one_year_or_more true ⟨2025, 3, 13⟩ ⟨2025, 1, 1⟩ = true
    ∧ leaveGenerated true ⟨2025, 3, 13⟩ 2025 ⟨2025, 11, 1⟩ = 0
    ∧ leaveGenerated false ⟨2025, 3, 13⟩ 2025 ⟨2025, 11, 1⟩
        = min (max (monthsPassed ⟨2025, 3, 13⟩ (calcDateFor 2025 ⟨2025, 11, 1⟩)) 0) 11
    ∧ leaveGenerated true ⟨2024, 8, 1⟩ 2025 ⟨2025, 3, 15⟩ = 15 := by
  have h := allowlist_forces_annual_regime ⟨2025, 3, 13⟩ ⟨2025, 1, 1⟩ 2025 ⟨2025, 11, 1⟩
  have h2 := allowlist_forces_annual_regime ⟨2024, 8, 1⟩ ⟨2025, 1, 1⟩ 2025 ⟨2025, 3, 15⟩
  exact ⟨h.1, h.2.1 (by decide) rfl, h.2.2.1 (by decide) (by decide),
    h2.2.2.2 (by decide) (by decide) rfl (by decide)⟩

end AttendanceManager
